import Mathlib

/-!
Verification of the metrics core of a tearsheet generator
(src/lean_tearsheet/generator.py): equity-curve extraction, return
computation, summary performance metrics, the drawdown series, the rolling
Sharpe series and benchmark alignment.

Modelling conventions of the shallow embedding: sample timestamps are
integers (POSIX seconds), prices and returns are rationals; where the
source applies a square root or a real power to otherwise rational data,
the embedding moves to the reals at exactly that point.  A pandas series
is modelled as a list of (instant, value) pairs.  Operations that can
raise in the source (an index access on an empty series, a division of
365.25 by zero elapsed days) are modelled with Option, and the IEEE
non-finite outcomes of a float division by zero are modelled by a
dedicated value type.
-/

namespace Tearsheet

/-- One raw row of the backtest equity chart, a quintuple
[timestamp, open, high, low, close].  Only the timestamp and the close are
used downstream (generator.py lines 50-55). -/
structure RawSample where
  timestamp : ℤ
  openv : ℚ
  high : ℚ
  low : ℚ
  close : ℚ
deriving DecidableEq

/-- An ordered sequence of (instant, portfolio value) pairs. -/
abbrev ValueSeries := List (ℤ × ℚ)

/-- An ordered sequence of (instant, fractional change) pairs. -/
abbrev ReturnSeries := List (ℤ × ℚ)

/-- Embedding of TearsheetGenerator.extract_equity_curve (generator.py
lines 44-56): each raw row becomes the pair of its timestamp and its close.
The source performs no validation of the rows. -/
def extract_equity_curve (samples : List RawSample) : ValueSeries :=
  samples.map (fun s => (s.timestamp, s.close))

/-- Embedding of TearsheetGenerator.get_returns (generator.py lines 58-65):
pct_change followed by dropna, i.e. for consecutive samples the pair of the
later instant and the simple percentage change of the value. -/
def get_returns (equity : ValueSeries) : ReturnSeries :=
  (equity.zip equity.tail).map (fun p => (p.2.1, p.2.2 / p.1.2 - 1))

/-- The possible failure kind named by the specification for malformed
extraction input. -/
inductive TearsheetError where
  | dataFormatError
deriving DecidableEq

/-- Contract of extraction as the specification words it (section 4.1):
fail with DataFormatError if the samples collection is empty or any close
is nonpositive, otherwise return the series of (timestamp, close) pairs.
Stated here only to be compared with extract_equity_curve, the function the
source actually has. -/
def extract_value_series_spec (samples : List RawSample) :
    Except TearsheetError ValueSeries :=
  if samples.isEmpty then Except.error TearsheetError.dataFormatError
  else if samples.any (fun s => decide (s.close ≤ 0)) then
    Except.error TearsheetError.dataFormatError
  else Except.ok (samples.map (fun s => (s.timestamp, s.close)))

lemma get_returns_nil : get_returns [] = [] := rfl

lemma get_returns_singleton (a : ℤ × ℚ) : get_returns [a] = [] := rfl

lemma get_returns_cons (a b : ℤ × ℚ) (l : List (ℤ × ℚ)) :
    get_returns (a :: b :: l) = (b.1, b.2 / a.2 - 1) :: get_returns (b :: l) := rfl

lemma get_returns_length (equity : ValueSeries) :
    (get_returns equity).length = equity.length - 1 := by
  simp [get_returns, List.length_zip]

lemma get_returns_map_fst (equity : ValueSeries) :
    (get_returns equity).map Prod.fst = (equity.map Prod.fst).tail := by
  induction equity with
  | nil => rfl
  | cons a tl ih =>
    cases tl with
    | nil => rfl
    | cons b l =>
      rw [get_returns_cons]
      simpa using ih

lemma get_returns_getElem (equity : ValueSeries) (i : ℕ) (h : i + 1 < equity.length) :
    (get_returns equity)[i]? =
      some ((equity.map Prod.fst).getD (i + 1) 0,
        ((equity.map Prod.snd).getD (i + 1) 1) / ((equity.map Prod.snd).getD i 1) - 1) := by
  induction equity generalizing i with
  | nil => simp at h
  | cons a tl ih =>
    cases tl with
    | nil => simp at h
    | cons b l =>
      cases i with
      | zero => simp [get_returns_cons]
      | succ j =>
        rw [get_returns_cons]
        have hj : j + 1 < (b :: l).length := by
          simpa using Nat.lt_of_succ_lt_succ h
        simpa using ih j hj

/-- C1: for every ValueSeries, get_returns produces a series of length N - 1
(so an empty series, not an error, when N < 2), whose instants are the
input instants with the first dropped (timestamp order preserved), and whose
i-th value is v[i+1]/v[i] - 1. -/
theorem get_returns_spec (equity : ValueSeries)
    (_hpos : ∀ p ∈ equity, 0 < p.2) :
    (get_returns equity).length = equity.length - 1 ∧
    (get_returns equity).map Prod.fst = (equity.map Prod.fst).tail ∧
    ∀ i, i + 1 < equity.length →
      (get_returns equity)[i]? =
        some ((equity.map Prod.fst).getD (i + 1) 0,
          ((equity.map Prod.snd).getD (i + 1) 1) / ((equity.map Prod.snd).getD i 1) - 1) :=
  ⟨get_returns_length equity, get_returns_map_fst equity,
    fun i h => get_returns_getElem equity i h⟩

/-- Witness for C1 on the two-point curve 100, 110 an hour apart: one
return, at the later instant, equal to one tenth. -/
theorem get_returns_spec_witness :
    (get_returns [((0 : ℤ), (100 : ℚ)), (3600, 110)]).length = 1 ∧
    (get_returns [((0 : ℤ), (100 : ℚ)), (3600, 110)]).map Prod.fst = [3600] ∧
    (get_returns [((0 : ℤ), (100 : ℚ)), (3600, 110)])[0]? = some (3600, 110 / 100 - 1) := by
  refine ⟨(get_returns_spec _ (by decide)).1, ?_, ?_⟩
  · exact (get_returns_spec _ (by decide)).2.1
  · exact (get_returns_spec _ (by decide)).2.2 0 (by decide)

/-- C3 counterexample: the source extraction validates nothing.  On a
single sample whose close is -5 it returns the series with that
nonpositive close where the claim demands a DataFormatError, and on the
empty collection it returns the empty series rather than failing. -/
theorem extract_equity_curve_counterexample :
    extract_equity_curve [⟨0, 1, 1, 1, -5⟩] = [((0 : ℤ), (-5 : ℚ))] ∧
    extract_value_series_spec [⟨0, 1, 1, 1, -5⟩] =
      Except.error TearsheetError.dataFormatError ∧
    extract_equity_curve [] = [] ∧
    extract_value_series_spec [] = Except.error TearsheetError.dataFormatError := by
  exact ⟨rfl, rfl, rfl, rfl⟩

/-- C3 amended: extract_equity_curve never fails; on every samples
collection, empty or not and whatever the sign of the closes, it returns
the series pairing each timestamp with its close.  On the inputs the
specification calls well formed (nonempty, all closes positive) it agrees
with the specified contract. -/
theorem extract_equity_curve_spec (samples : List RawSample) :
    (extract_equity_curve samples).length = samples.length ∧
    (∀ i : ℕ, (extract_equity_curve samples)[i]? =
      (samples[i]?).map (fun s : RawSample => (s.timestamp, s.close))) ∧
    (samples ≠ [] → (∀ s ∈ samples, 0 < s.close) →
      extract_value_series_spec samples = Except.ok (extract_equity_curve samples)) := by
  refine ⟨by simp [extract_equity_curve], ?_, ?_⟩
  · intro i
    simp [extract_equity_curve]
  · intro hne hpos
    have hem : samples.isEmpty = false := by
      cases samples with
      | nil => exact absurd rfl hne
      | cons a t => rfl
    have hany : samples.any (fun s => decide (s.close ≤ 0)) = false := by
      simp only [List.any_eq_false, decide_eq_true_eq]
      intro s hs
      exact not_le.mpr (hpos s hs)
    simp [extract_value_series_spec, hem, hany, extract_equity_curve]

/-- Witness for C3 on a well-formed single sample: extraction returns the
mapped pair and agrees with the specified contract. -/
theorem extract_equity_curve_spec_witness :
    (extract_equity_curve [⟨60, 2, 3, 1, 2⟩]).length = 1 ∧
    extract_value_series_spec [⟨60, 2, 3, 1, 2⟩] =
      Except.ok (extract_equity_curve [⟨60, 2, 3, 1, 2⟩]) := by
  refine ⟨(extract_equity_curve_spec _).1, ?_⟩
  exact (extract_equity_curve_spec [⟨60, 2, 3, 1, 2⟩]).2.2 (by decide) (by decide)

/-- Arithmetic mean of a list of rationals, as the pandas mean of a
series. -/
def mean (l : List ℚ) : ℚ := l.sum / (l.length : ℚ)

/-- Sample variance with one delta degree of freedom, the square of the
pandas std.  For fewer than two observations the pandas std is NaN, which
the embedding models as none. -/
def sampleVar? (l : List ℚ) : Option ℚ :=
  if 2 ≤ l.length then
    some ((l.map (fun x => (x - mean l) ^ 2)).sum / ((l.length : ℚ) - 1))
  else none

/-- The sampling-frequency constant the source fixes inside
calculate_metrics and get_rolling_sharpe (generator.py lines 137 and 195),
with the comment there assuming hourly data: 365.25 * 24. -/
def periods_per_year : ℚ := 365.25 * 24

/-- Whole-day span between the first and last instants of a return series,
the embedding of (returns.index[-1] - returns.index[0]).days (generator.py
line 133); a Python timedelta rounds its day count toward minus
infinity. -/
def elapsed_days (returns : ReturnSeries) : ℤ :=
  Int.fdiv ((returns.map Prod.fst).getLast?.getD 0 -
    (returns.map Prod.fst).head?.getD 0) 86400

/-- Product of (1 + r) over the returns, minus one (generator.py line
132). -/
def total_return (vals : List ℚ) : ℚ := (vals.map (fun x => 1 + x)).prod - 1

/-- Cumulative product of (1 + r), the embedding of
(1 + returns).cumprod() (generator.py line 144). -/
def cum_returns (vals : List ℚ) : List ℚ :=
  ((vals.map (fun x => 1 + x)).scanl (fun a b => a * b) 1).tail

/-- Running maximum of a series, the embedding of expanding().max()
(generator.py line 145). -/
def running_max (l : List ℚ) : List ℚ :=
  match l with
  | [] => []
  | h :: t => t.scanl max h

/-- Drawdown values: (cum - running_max) / running_max pointwise
(generator.py line 146 and 179). -/
def drawdown_vals (vals : List ℚ) : List ℚ :=
  List.zipWith (fun c m => (c - m) / m) (cum_returns vals)
    (running_max (cum_returns vals))

/-- Minimum of a series as pandas min() on a nonempty series; the source
only evaluates it on nonempty input, so the value on the empty list is
immaterial. -/
def dd_min : List ℚ → ℚ
  | [] => 0
  | h :: t => t.foldl min h

/-- Count of strictly positive returns, (returns > 0).sum() (generator.py
line 150). -/
def wins (vals : List ℚ) : ℕ := (vals.filter (fun x => decide (0 < x))).length

/-- Count of strictly negative returns, (returns < 0).sum() (generator.py
line 151). -/
def losses (vals : List ℚ) : ℕ := (vals.filter (fun x => decide (x < 0))).length

/-- Win rate, wins / (wins + losses) when some return is nonzero and 0
otherwise (generator.py line 152). -/
def win_rate (vals : List ℚ) : ℚ :=
  if 0 < wins vals + losses vals then
    (wins vals : ℚ) / ((wins vals : ℚ) + (losses vals : ℚ))
  else 0

/-- Annual return, (1 + total_return) ** (365.25 / days) - 1 (generator.py
line 134), as a real power. -/
noncomputable def annual_return_of (returns : ReturnSeries) : ℝ :=
  Real.rpow (1 + (total_return (returns.map Prod.snd) : ℝ))
    (365.25 / (elapsed_days returns : ℝ)) - 1

/-- Annualized volatility, returns.std() * np.sqrt(periods_per_year)
(generator.py line 138); none models the NaN std of fewer than two
returns. -/
noncomputable def volatility_of (vals : List ℚ) : Option ℝ :=
  (sampleVar? vals).map
    (fun v => Real.sqrt (v : ℝ) * Real.sqrt ((periods_per_year : ℚ) : ℝ))

/-- Annualized downside deviation, the std of the negative returns times
the root of periods_per_year (generator.py lines 155-156); none models the
NaN std of fewer than two negative returns. -/
noncomputable def downside_std_of (vals : List ℚ) : Option ℝ :=
  (sampleVar? (vals.filter (fun x => decide (x < 0)))).map
    (fun v => Real.sqrt (v : ℝ) * Real.sqrt ((periods_per_year : ℚ) : ℝ))

/-- The record calculate_metrics returns (generator.py lines 158-170). -/
structure Metrics where
  total_return : ℚ
  annual_return : ℝ
  volatility : Option ℝ
  sharpe_ratio : ℝ
  sortino_ratio : ℝ
  calmar_ratio : ℝ
  max_drawdown : ℚ
  win_rate : ℚ
  total_trades : ℕ
  winning_trades : ℕ
  losing_trades : ℕ

/-- The metric values of a return series on which no exception fires
(generator.py lines 122-170).  A comparison of a NaN volatility or
downside deviation with zero is false in the source, hence the none
branches yielding 0 for the Sharpe and Sortino ratios. -/
noncomputable def metricsOf (returns : ReturnSeries) : Metrics :=
  let vals := returns.map Prod.snd
  { total_return := total_return vals
    annual_return := annual_return_of returns
    volatility := volatility_of vals
    sharpe_ratio :=
      match volatility_of vals with
      | some s => if 0 < s then annual_return_of returns / s else 0
      | none => 0
    sortino_ratio :=
      match downside_std_of vals with
      | some d => if 0 < d then annual_return_of returns / d else 0
      | none => 0
    calmar_ratio :=
      if dd_min (drawdown_vals vals) < 0 then
        annual_return_of returns / |((dd_min (drawdown_vals vals) : ℚ) : ℝ)|
      else 0
    max_drawdown := dd_min (drawdown_vals vals)
    win_rate := win_rate vals
    total_trades := wins vals + losses vals
    winning_trades := wins vals
    losing_trades := losses vals }

/-- Embedding of TearsheetGenerator.calculate_metrics (generator.py lines
122-170).  none models the two exceptions the body can raise: the index
access returns.index[-1] on an empty series, and the zero division in
365.25 / days when the whole-day span is zero. -/
noncomputable def calculate_metrics (returns : ReturnSeries) : Option Metrics :=
  match returns with
  | [] => none
  | _ :: _ =>
    if elapsed_days returns = 0 then none
    else some (metricsOf returns)

lemma calculate_metrics_nil : calculate_metrics [] = none := rfl

lemma calculate_metrics_eq (returns : ReturnSeries) (hne : returns ≠ [])
    (hd : elapsed_days returns ≠ 0) :
    calculate_metrics returns = some (metricsOf returns) := by
  cases returns with
  | nil => exact absurd rfl hne
  | cons a t => simp [calculate_metrics, hd]

lemma calculate_metrics_some_inv (returns : ReturnSeries) (m : Metrics)
    (h : calculate_metrics returns = some m) :
    returns ≠ [] ∧ elapsed_days returns ≠ 0 ∧ m = metricsOf returns := by
  cases returns with
  | nil => simp [calculate_metrics] at h
  | cons a t =>
    by_cases hd : elapsed_days (a :: t) = 0
    · simp [calculate_metrics, hd] at h
    · refine ⟨by simp, hd, ?_⟩
      simp [calculate_metrics, hd] at h
      exact h.symm

/-- C4 counterexample: on the two-point value series 100, 110 the return
series is the single return one tenth, but calculate_metrics on that
one-element series raises (its whole-day span is zero, so 365.25 / days
divides by zero); it reports nothing, in particular no Total Return. -/
theorem roundtrip_counterexample :
    get_returns [((0 : ℤ), (100 : ℚ)), (3600, 110)] = [(3600, 1 / 10)] ∧
    calculate_metrics [((3600 : ℤ), (1 / 10 : ℚ))] = none ∧
    ¬ ∃ m : Metrics, calculate_metrics [((3600 : ℤ), (1 / 10 : ℚ))] = some m := by
  have h2 : calculate_metrics [((3600 : ℤ), (1 / 10 : ℚ))] = none := by
    simp [calculate_metrics, elapsed_days]
  refine ⟨by norm_num [get_returns], h2, ?_⟩
  rintro ⟨m, hm⟩
  rw [h2] at hm
  exact Option.noConfusion hm

/-- C4 amended: on the two-point value series 100, 110 get_returns yields
the single return exactly one tenth, and the Total Return of that
one-element return series (product of 1 + r, minus one) is exactly one
tenth; calculate_metrics itself is undefined on it, its whole-day span
being zero, as the specification elsewhere mandates for zero elapsed
days. -/
theorem roundtrip_amended :
    get_returns [((0 : ℤ), (100 : ℚ)), (3600, 110)] = [(3600, 1 / 10)] ∧
    total_return ((get_returns [((0 : ℤ), (100 : ℚ)), (3600, 110)]).map Prod.snd) = 1 / 10 ∧
    elapsed_days (get_returns [((0 : ℤ), (100 : ℚ)), (3600, 110)]) = 0 ∧
    calculate_metrics (get_returns [((0 : ℤ), (100 : ℚ)), (3600, 110)]) = none := by
  refine ⟨by norm_num [get_returns], by norm_num [get_returns, total_return], rfl, rfl⟩

/-- C5: for every nonempty return series, calculate_metrics fails (returns
nothing) when the whole-day span between the first and last instants is
zero, and otherwise reports Total Return equal to the product of (1 + r)
minus one and Annual Return equal to
(1 + Total Return) ^ (365.25 / elapsed_days) - 1. -/
theorem annual_return_spec (returns : ReturnSeries) (hne : returns ≠ []) :
    (elapsed_days returns = 0 → calculate_metrics returns = none) ∧
    (elapsed_days returns ≠ 0 →
      ∃ m : Metrics, calculate_metrics returns = some m ∧
        m.total_return = ((returns.map Prod.snd).map (fun x => 1 + x)).prod - 1 ∧
        m.annual_return =
          Real.rpow (1 + (m.total_return : ℝ)) (365.25 / (elapsed_days returns : ℝ)) - 1) := by
  constructor
  · intro hd
    cases returns with
    | nil => rfl
    | cons a t => simp [calculate_metrics, hd]
  · intro hd
    refine ⟨metricsOf returns, calculate_metrics_eq returns hne hd, rfl, rfl⟩

/-- Witness for C5 on the return series one tenth then one twentieth, a day
apart. -/
theorem annual_return_spec_witness :
    ∃ m : Metrics,
      calculate_metrics [((0 : ℤ), (1 / 10 : ℚ)), (86400, 1 / 20)] = some m ∧
      m.total_return =
        (([((0 : ℤ), (1 / 10 : ℚ)), (86400, 1 / 20)].map Prod.snd).map (fun x => 1 + x)).prod - 1 ∧
      m.annual_return =
        Real.rpow (1 + (m.total_return : ℝ))
          (365.25 / (elapsed_days [((0 : ℤ), (1 / 10 : ℚ)), (86400, 1 / 20)] : ℝ)) - 1 :=
  (annual_return_spec _ (by decide)).2 (by decide)

lemma sampleVar_example : sampleVar? [1 / 10, 3 / 10] = some (1 / 50) := by
  norm_num [sampleVar?, mean]

lemma ppy_cast_ne : ((periods_per_year : ℚ) : ℝ) ≠ ((252 : ℚ) : ℝ) := by
  norm_num [periods_per_year]

/-- C2 counterexample: the source fixes periods_per_year internally, so on
the concrete return series one tenth then three tenths (sample variance
1/50) the reported Volatility is the sample standard deviation times the
root of 365.25 * 24, and not the standard deviation times the root of the
caller-supplied 252 the claim would demand. -/
theorem volatility_counterexample :
    ∃ m : Metrics,
      calculate_metrics [((0 : ℤ), (1 / 10 : ℚ)), (86400, 3 / 10)] = some m ∧
      m.volatility =
        some (Real.sqrt ((1 / 50 : ℚ) : ℝ) * Real.sqrt ((365.25 * 24 : ℚ) : ℝ)) ∧
      m.volatility ≠
        some (Real.sqrt ((1 / 50 : ℚ) : ℝ) * Real.sqrt ((252 : ℚ) : ℝ)) := by
  have hvol : (metricsOf [((0 : ℤ), (1 / 10 : ℚ)), (86400, 3 / 10)]).volatility =
      some (Real.sqrt ((1 / 50 : ℚ) : ℝ) * Real.sqrt ((365.25 * 24 : ℚ) : ℝ)) := by
    show volatility_of [1 / 10, 3 / 10] = _
    rw [volatility_of, sampleVar_example]
    simp [periods_per_year]
  refine ⟨metricsOf [((0 : ℤ), (1 / 10 : ℚ)), (86400, 3 / 10)],
    calculate_metrics_eq _ (by simp) (by decide), hvol, ?_⟩
  rw [hvol]
  intro h
  have h50 : (0 : ℝ) < ((1 / 50 : ℚ) : ℝ) := by norm_num
  have hs : Real.sqrt ((1 / 50 : ℚ) : ℝ) ≠ 0 := ne_of_gt (Real.sqrt_pos.mpr h50)
  have h2 := mul_left_cancel₀ hs (Option.some.inj h)
  rw [Real.sqrt_inj (by positivity) (by positivity)] at h2
  exact ppy_cast_ne (by rw [periods_per_year] at *; exact h2)

/-- C2 amended: calculate_metrics takes no periods_per_year from the
caller; it uses the constant 365.25 * 24 fixed inside the function, and
whenever it reports at all its Volatility is the sample standard deviation
of the returns times the square root of that fixed constant.  The constant
is also never inferred from timestamps: two return series with the same
values but different instants get the same Volatility. -/
theorem volatility_fixed_ppy (returns : ReturnSeries) (hne : returns ≠ [])
    (hd : elapsed_days returns ≠ 0) :
    ∃ m : Metrics, calculate_metrics returns = some m ∧
      periods_per_year = 365.25 * 24 ∧
      m.volatility = (sampleVar? (returns.map Prod.snd)).map
        (fun v => Real.sqrt (v : ℝ) * Real.sqrt ((periods_per_year : ℚ) : ℝ)) ∧
      (∀ (returns' : ReturnSeries) (m' : Metrics),
        returns'.map Prod.snd = returns.map Prod.snd →
        calculate_metrics returns' = some m' → m'.volatility = m.volatility) := by
  refine ⟨metricsOf returns, calculate_metrics_eq returns hne hd, rfl, rfl, ?_⟩
  intro returns' m' hvals h'
  obtain ⟨_, _, rfl⟩ := calculate_metrics_some_inv returns' m' h'
  show volatility_of (returns'.map Prod.snd) = volatility_of (returns.map Prod.snd)
  rw [hvals]

/-- Witness for C2 as amended, on the return series one tenth then three
tenths a day apart. -/
theorem volatility_fixed_ppy_witness :
    ∃ m : Metrics,
      calculate_metrics [((0 : ℤ), (1 / 10 : ℚ)), (86400, 3 / 10)] = some m ∧
      periods_per_year = 365.25 * 24 ∧
      m.volatility =
        (sampleVar? ([((0 : ℤ), (1 / 10 : ℚ)), (86400, 3 / 10)].map Prod.snd)).map
          (fun v => Real.sqrt (v : ℝ) * Real.sqrt ((periods_per_year : ℚ) : ℝ)) ∧
      (∀ (returns' : ReturnSeries) (m' : Metrics),
        returns'.map Prod.snd = [((0 : ℤ), (1 / 10 : ℚ)), (86400, 3 / 10)].map Prod.snd →
        calculate_metrics returns' = some m' → m'.volatility = m.volatility) :=
  volatility_fixed_ppy _ (by simp) (by decide)

/-- Embedding of TearsheetGenerator.get_drawdown_series (generator.py
lines 176-180): the drawdown values indexed by the instants of the return
series. -/
def get_drawdown_series (returns : ReturnSeries) : List (ℤ × ℚ) :=
  List.zip (returns.map Prod.fst) (drawdown_vals (returns.map Prod.snd))

lemma length_cum_returns (vals : List ℚ) :
    (cum_returns vals).length = vals.length := by
  simp [cum_returns, List.length_scanl]

lemma length_running_max (l : List ℚ) : (running_max l).length = l.length := by
  cases l with
  | nil => rfl
  | cons h t => simp [running_max, List.length_scanl]

lemma length_drawdown_vals (vals : List ℚ) :
    (drawdown_vals vals).length = vals.length := by
  simp [drawdown_vals, List.length_zipWith, length_cum_returns, length_running_max]

lemma scanl_mul_pos (l : List ℚ) :
    ∀ a : ℚ, 0 < a → (∀ x ∈ l, 0 < x) →
      ∀ c ∈ l.scanl (fun u v => u * v) a, 0 < c := by
  induction l with
  | nil =>
    intro a ha _ c hc
    rw [List.scanl_nil] at hc
    simp at hc
    exact hc ▸ ha
  | cons x t ih =>
    intro a ha hl c hc
    rw [List.scanl_cons] at hc
    simp only [List.singleton_append, List.mem_cons] at hc
    rcases hc with rfl | hc
    · exact ha
    · exact ih (a * x) (mul_pos ha (hl x (by simp))) (fun y hy => hl y (by simp [hy])) c hc

lemma cum_returns_pos (vals : List ℚ) (h : ∀ x ∈ vals, -1 < x) :
    ∀ c ∈ cum_returns vals, 0 < c := by
  intro c hc
  have hc' : c ∈ (vals.map (fun x => 1 + x)).scanl (fun u v => u * v) 1 :=
    List.mem_of_mem_tail hc
  refine scanl_mul_pos _ 1 one_pos ?_ c hc'
  intro y hy
  obtain ⟨x, hx, rfl⟩ := List.mem_map.1 hy
  have := h x hx
  linarith

lemma drawdown_entry_nonpos (a m : ℚ) (hm : 0 < m) (ham : a ≤ m) :
    (a - m) / m ≤ 0 :=
  div_nonpos_iff.mpr (Or.inr ⟨sub_nonpos.2 ham, hm.le⟩)

lemma dd_aux (t : List ℚ) :
    ∀ m : ℚ, 0 < m → (∀ x ∈ t, 0 < x) →
      ∀ p ∈ List.zipWith (fun c mm => (c - mm) / mm) t ((t.scanl max m).tail), p ≤ 0 := by
  induction t with
  | nil =>
    intro m _ _ p hp
    simp [List.scanl_nil] at hp
  | cons a t' ih =>
    intro m hm hall p hp
    have hq : 0 < max m a := lt_of_lt_of_le hm (le_max_left m a)
    rw [List.scanl_cons] at hp
    simp only [List.singleton_append, List.tail_cons] at hp
    cases t' with
    | nil =>
      simp only [List.scanl_nil, List.zipWith_cons_cons, List.zipWith_nil_right,
        List.mem_singleton] at hp
      exact hp ▸ drawdown_entry_nonpos a (max m a) hq (le_max_right m a)
    | cons b t'' =>
      rw [List.scanl_cons] at hp
      simp only [List.singleton_append, List.zipWith_cons_cons, List.mem_cons] at hp
      rcases hp with rfl | hp
      · exact drawdown_entry_nonpos a (max m a) hq (le_max_right m a)
      · refine ih (max m a) hq (fun x hx => hall x (by simp [hx])) p ?_
        rw [List.scanl_cons]
        simpa using hp

lemma drawdown_vals_nonpos (vals : List ℚ) (h : ∀ x ∈ vals, -1 < x) :
    ∀ p ∈ drawdown_vals vals, p ≤ 0 := by
  have hpos := cum_returns_pos vals h
  rw [drawdown_vals]
  cases hc : cum_returns vals with
  | nil => simp
  | cons c0 ct =>
    rw [hc] at hpos
    have hc0 : 0 < c0 := hpos c0 (by simp)
    rw [running_max]
    cases ct with
    | nil =>
      intro p hp
      simp only [List.scanl_nil, List.zipWith_cons_cons, List.zipWith_nil_right,
        List.mem_singleton] at hp
      simp [hp]
    | cons c1 ct' =>
      intro p hp
      rw [List.scanl_cons] at hp
      simp only [List.singleton_append, List.zipWith_cons_cons, List.mem_cons] at hp
      rcases hp with rfl | hp
      · simp
      · refine dd_aux (c1 :: ct') c0 hc0 (fun x hx => hpos x (by simp [hx])) p ?_
        rw [List.scanl_cons]
        simpa using hp

lemma foldl_min_nonpos (t : List ℚ) :
    ∀ h : ℚ, h ≤ 0 → t.foldl min h ≤ 0 := by
  induction t with
  | nil => intro h hh; simpa using hh
  | cons a t' ih =>
    intro h hh
    rw [List.foldl_cons]
    exact ih (min h a) (le_trans (min_le_left h a) hh)

lemma dd_min_nonpos (l : List ℚ) (h : ∀ x ∈ l, x ≤ 0) : dd_min l ≤ 0 := by
  cases l with
  | nil => simp [dd_min]
  | cons a t => exact foldl_min_nonpos t a (h a (by simp))

/-- C6: for every return series drawn from a value series (each fractional
change exceeds -1, since values are positive), the drawdown series has the
same length as the return series, every drawdown value is nonpositive, and
whenever calculate_metrics reports at all its Max Drawdown is
nonpositive. -/
theorem drawdown_spec (returns : ReturnSeries)
    (hgt : ∀ p ∈ returns, (-1 : ℚ) < p.2) :
    (get_drawdown_series returns).length = returns.length ∧
    (∀ p ∈ get_drawdown_series returns, p.2 ≤ 0) ∧
    (∀ m : Metrics, calculate_metrics returns = some m → m.max_drawdown ≤ 0) := by
  have hvals : ∀ x ∈ returns.map Prod.snd, (-1 : ℚ) < x := by
    intro x hx
    obtain ⟨p, hp, rfl⟩ := List.mem_map.1 hx
    exact hgt p hp
  refine ⟨?_, ?_, ?_⟩
  · simp [get_drawdown_series, List.length_zip, length_drawdown_vals]
  · intro p hp
    have := (List.of_mem_zip hp).2
    exact drawdown_vals_nonpos _ hvals _ this
  · intro m hm
    obtain ⟨_, _, rfl⟩ := calculate_metrics_some_inv returns m hm
    show dd_min (drawdown_vals (returns.map Prod.snd)) ≤ 0
    exact dd_min_nonpos _ (drawdown_vals_nonpos _ hvals)

/-- Witness for C6 on the return series one tenth then minus one
twentieth, a day apart. -/
theorem drawdown_spec_witness :
    (get_drawdown_series [((0 : ℤ), (1 / 10 : ℚ)), (86400, -1 / 20)]).length = 2 ∧
    (metricsOf [((0 : ℤ), (1 / 10 : ℚ)), (86400, -1 / 20)]).max_drawdown ≤ 0 := by
  constructor
  · exact (drawdown_spec _ (by norm_num)).1
  · exact (drawdown_spec _ (by norm_num)).2.2 _
      (calculate_metrics_eq _ (by simp) (by decide))

lemma win_rate_mem_Icc (vals : List ℚ) :
    0 ≤ win_rate vals ∧ win_rate vals ≤ 1 := by
  rw [win_rate]
  split
  case isTrue h =>
    have hden : (0 : ℚ) < (wins vals : ℚ) + (losses vals : ℚ) := by
      have := Nat.cast_pos (α := ℚ) |>.2 h
      push_cast at this ⊢
      linarith
    constructor
    · positivity
    · rw [div_le_one hden]
      have : (wins vals : ℚ) ≤ (wins vals : ℚ) + (losses vals : ℚ) := by
        have : (0 : ℚ) ≤ (losses vals : ℚ) := by positivity
        linarith
      linarith
  case isFalse h => norm_num

/-- C8: whenever calculate_metrics reports at all, its Win Rate is
wins / (wins + losses) over the strictly positive and strictly negative
return counts (zero returns appear in neither count), 0 when both counts
are 0, and always lies in the closed unit interval; on the concrete
returns 0.01, -0.02, 0.03, -0.01, 0.02 the Win Rate is 3/5 with 3 winning
and 2 losing trades. -/
theorem win_rate_spec :
    (∀ vals : List ℚ, 0 ≤ win_rate vals ∧ win_rate vals ≤ 1) ∧
    (∀ (returns : ReturnSeries) (m : Metrics), calculate_metrics returns = some m →
      m.win_rate = win_rate (returns.map Prod.snd) ∧
      m.winning_trades = wins (returns.map Prod.snd) ∧
      m.losing_trades = losses (returns.map Prod.snd) ∧
      0 ≤ m.win_rate ∧ m.win_rate ≤ 1) ∧
    (wins [1 / 100, -1 / 50, 3 / 100, -1 / 100, 1 / 50] = 3 ∧
      losses [1 / 100, -1 / 50, 3 / 100, -1 / 100, 1 / 50] = 2 ∧
      win_rate [1 / 100, -1 / 50, 3 / 100, -1 / 100, 1 / 50] = 3 / 5) ∧
    (∃ m : Metrics,
      calculate_metrics [((0 : ℤ), (1 / 100 : ℚ)), (86400, -1 / 50), (172800, 3 / 100),
        (259200, -1 / 100), (345600, 1 / 50)] = some m ∧
      m.win_rate = 3 / 5 ∧ m.winning_trades = 3 ∧ m.losing_trades = 2) := by
  have hwins : wins [1 / 100, -1 / 50, 3 / 100, -1 / 100, 1 / 50] = 3 := by
    norm_num [wins, List.filter]
  have hlosses : losses [1 / 100, -1 / 50, 3 / 100, -1 / 100, 1 / 50] = 2 := by
    norm_num [losses, List.filter]
  have hrate : win_rate [1 / 100, -1 / 50, 3 / 100, -1 / 100, 1 / 50] = 3 / 5 := by
    rw [win_rate, hwins, hlosses]
    norm_num
  refine ⟨win_rate_mem_Icc, ?_, ⟨hwins, hlosses, hrate⟩, ?_⟩
  · intro returns m hm
    obtain ⟨_, _, rfl⟩ := calculate_metrics_some_inv returns m hm
    exact ⟨rfl, rfl, rfl, win_rate_mem_Icc _⟩
  · refine ⟨metricsOf _, calculate_metrics_eq _ (by simp) (by decide), ?_, ?_, ?_⟩
    · show win_rate _ = 3 / 5
      simpa using hrate
    · show wins _ = 3
      simpa using hwins
    · show losses _ = 2
      simpa using hlosses

/-- Float outcome of one rolling Sharpe entry: a finite value, a signed
infinity from an IEEE division of a nonzero mean by a zero standard
deviation, or NaN.  Pandas renders the leading insufficient-history
entries as NaN too. -/
inductive FVal where
  | fin (x : ℝ)
  | posInf
  | negInf
  | nan

/-- The trailing window of up to window observations ending at position i,
as pandas rolling windows slice a series. -/
def trailing_window (vals : List ℚ) (window i : ℕ) : List ℚ :=
  (vals.take (i + 1)).drop (i + 1 - window)

/-- One defined entry of the rolling Sharpe series,
rolling_mean / rolling_std * sqrt(periods_per_year) (generator.py lines
195-199).  A std over fewer than two observations is NaN; a zero std makes
the unguarded division produce a signed infinity or NaN by the sign of the
mean. -/
noncomputable def rolling_entry (w : List ℚ) : FVal :=
  match sampleVar? w with
  | none => FVal.nan
  | some v =>
    if v = 0 then
      if 0 < mean w then FVal.posInf
      else if mean w < 0 then FVal.negInf
      else FVal.nan
    else
      FVal.fin (((mean w : ℚ) : ℝ) / Real.sqrt (v : ℝ) *
        Real.sqrt ((periods_per_year : ℚ) : ℝ))

/-- Values of the rolling Sharpe series: a position with fewer than window
observations so far is NaN (the pandas default min_periods equals the
window), the rest are computed from their trailing window alone. -/
noncomputable def rolling_vals (vals : List ℚ) (window : ℕ) : List FVal :=
  (List.range vals.length).map (fun i =>
    if window ≤ i + 1 then rolling_entry (trailing_window vals window i)
    else FVal.nan)

/-- Embedding of TearsheetGenerator.get_rolling_sharpe (generator.py lines
182-199), indexed by the instants of the return series. -/
noncomputable def get_rolling_sharpe (returns : ReturnSeries) (window : ℕ) :
    List (ℤ × FVal) :=
  List.zip (returns.map Prod.fst) (rolling_vals (returns.map Prod.snd) window)

lemma length_rolling_vals (vals : List ℚ) (window : ℕ) :
    (rolling_vals vals window).length = vals.length := by
  simp [rolling_vals]

lemma rolling_vals_getElem (vals : List ℚ) (window i : ℕ) (h : i < vals.length) :
    (rolling_vals vals window)[i]? =
      some (if window ≤ i + 1 then rolling_entry (trailing_window vals window i)
        else FVal.nan) := by
  simp [rolling_vals, List.getElem?_range, h]

lemma get_rolling_sharpe_snd (returns : ReturnSeries) (window i : ℕ) :
    ((get_rolling_sharpe returns window)[i]?).map Prod.snd =
      (rolling_vals (returns.map Prod.snd) window)[i]? := by
  have hlen : (rolling_vals (returns.map Prod.snd) window).length ≤
      (returns.map Prod.fst).length := by
    simp [length_rolling_vals]
  rw [get_rolling_sharpe, ← List.getElem?_map, List.map_snd_zip _ _ hlen]

lemma rolling_entry_fin (w : List ℚ) (v : ℚ) (hv : sampleVar? w = some v)
    (hvne : v ≠ 0) :
    rolling_entry w = FVal.fin (((mean w : ℚ) : ℝ) / Real.sqrt (v : ℝ) *
      Real.sqrt ((periods_per_year : ℚ) : ℝ)) := by
  simp [rolling_entry, hv, hvne]

/-- C7 (amended: the annualization constant is the 365.25 * 24 fixed
inside the source, not a caller-supplied periods_per_year): the rolling
Sharpe series has the length of the return series, every position with
fewer than window observations is NaN (absent, not zero), every position
with enough history is computed from its trailing window as
mean / std * sqrt(365.25 * 24), and the entry at a position depends on
nothing but that trailing window. -/
theorem rolling_sharpe_spec (returns : ReturnSeries) (window : ℕ)
    (_hw : 1 ≤ window) :
    (get_rolling_sharpe returns window).length = returns.length ∧
    (∀ i : ℕ, i + 1 < window → i < returns.length →
      ((get_rolling_sharpe returns window)[i]?).map Prod.snd = some FVal.nan) ∧
    (∀ i : ℕ, window ≤ i + 1 → i < returns.length →
      ((get_rolling_sharpe returns window)[i]?).map Prod.snd =
        some (rolling_entry (trailing_window (returns.map Prod.snd) window i))) ∧
    (∀ (w : List ℚ) (v : ℚ), sampleVar? w = some v → v ≠ 0 →
      rolling_entry w = FVal.fin (((mean w : ℚ) : ℝ) / Real.sqrt (v : ℝ) *
        Real.sqrt ((periods_per_year : ℚ) : ℝ))) ∧
    (∀ (returns' : ReturnSeries) (i : ℕ), i < returns.length → i < returns'.length →
      trailing_window (returns.map Prod.snd) window i =
        trailing_window (returns'.map Prod.snd) window i →
      ((get_rolling_sharpe returns window)[i]?).map Prod.snd =
        ((get_rolling_sharpe returns' window)[i]?).map Prod.snd) := by
  refine ⟨?_, ?_, ?_, rolling_entry_fin, ?_⟩
  · simp [get_rolling_sharpe, List.length_zip, length_rolling_vals]
  · intro i hi hilen
    rw [get_rolling_sharpe_snd,
      rolling_vals_getElem _ _ _ (by simpa using hilen)]
    have : ¬ window ≤ i + 1 := by omega
    simp [this]
  · intro i hi hilen
    rw [get_rolling_sharpe_snd,
      rolling_vals_getElem _ _ _ (by simpa using hilen)]
    simp [hi]
  · intro returns' i hi hi' htw
    rw [get_rolling_sharpe_snd, get_rolling_sharpe_snd,
      rolling_vals_getElem _ _ _ (by simpa using hi),
      rolling_vals_getElem _ _ _ (by simpa using hi'), htw]

/-- Witness for C7 as amended, window 2 on the return series one tenth
then three tenths. -/
theorem rolling_sharpe_spec_witness :
    (get_rolling_sharpe [((0 : ℤ), (1 / 10 : ℚ)), (86400, 3 / 10)] 2).length = 2 ∧
    ((get_rolling_sharpe [((0 : ℤ), (1 / 10 : ℚ)), (86400, 3 / 10)] 2)[0]?).map Prod.snd =
      some FVal.nan ∧
    ((get_rolling_sharpe [((0 : ℤ), (1 / 10 : ℚ)), (86400, 3 / 10)] 2)[1]?).map Prod.snd =
      some (rolling_entry
        (trailing_window ([((0 : ℤ), (1 / 10 : ℚ)), (86400, 3 / 10)].map Prod.snd) 2 1)) := by
  refine ⟨(rolling_sharpe_spec _ 2 (by norm_num)).1, ?_, ?_⟩
  · exact (rolling_sharpe_spec _ 2 (by norm_num)).2.1 0 (by norm_num) (by norm_num)
  · exact (rolling_sharpe_spec _ 2 (by norm_num)).2.2.1 1 (by norm_num) (by norm_num)

lemma mean_example : mean [1 / 10, 3 / 10] = 1 / 5 := by
  norm_num [mean]

/-- C7 counterexample to the caller-supplied periods_per_year: with window
2 on the returns one tenth then three tenths, the defined rolling entry is
mean / std times the root of the internal 365.25 * 24, and differs from
the value the claim demands for the supplied periods_per_year 252. -/
theorem rolling_sharpe_counterexample :
    (rolling_vals [1 / 10, 3 / 10] 2)[1]? =
      some (FVal.fin (((1 / 5 : ℚ) : ℝ) / Real.sqrt ((1 / 50 : ℚ) : ℝ) *
        Real.sqrt ((365.25 * 24 : ℚ) : ℝ))) ∧
    (rolling_vals [1 / 10, 3 / 10] 2)[1]? ≠
      some (FVal.fin (((1 / 5 : ℚ) : ℝ) / Real.sqrt ((1 / 50 : ℚ) : ℝ) *
        Real.sqrt ((252 : ℚ) : ℝ))) := by
  have h1 : (rolling_vals [1 / 10, 3 / 10] 2)[1]? =
      some (rolling_entry [1 / 10, 3 / 10]) := by
    rw [rolling_vals_getElem _ _ _ (by norm_num)]
    norm_num [trailing_window]
  have h2 : rolling_entry [1 / 10, 3 / 10] =
      FVal.fin (((1 / 5 : ℚ) : ℝ) / Real.sqrt ((1 / 50 : ℚ) : ℝ) *
        Real.sqrt ((periods_per_year : ℚ) : ℝ)) := by
    rw [rolling_entry_fin _ _ sampleVar_example (by norm_num), mean_example]
  constructor
  · rw [h1, h2, periods_per_year]
  · rw [h1, h2]
    intro h
    rw [Option.some.injEq, FVal.fin.injEq] at h
    have ha : ((1 / 5 : ℚ) : ℝ) / Real.sqrt ((1 / 50 : ℚ) : ℝ) ≠ 0 := by
      have : (0 : ℝ) < ((1 / 5 : ℚ) : ℝ) / Real.sqrt ((1 / 50 : ℚ) : ℝ) :=
        div_pos (by norm_num) (Real.sqrt_pos.mpr (by norm_num))
      exact ne_of_gt this
    have h3 := mul_left_cancel₀ ha h
    rw [Real.sqrt_inj (by norm_num [periods_per_year]) (by norm_num)] at h3
    exact ppy_cast_ne h3

lemma sampleVar_const : sampleVar? [1 / 20, 1 / 20] = some 0 := by
  norm_num [sampleVar?, mean]

/-- C10: on a return series whose trailing window is constant the rolling
standard deviation is zero, and the source divides by it without any
guard: with window 2 on the constant returns one twentieth the defined
entry at position 1 is a positive infinity, not a finite guarded value
(the leading entry is the usual NaN of insufficient history). -/
theorem rolling_sharpe_zero_std :
    get_rolling_sharpe [((0 : ℤ), (1 / 20 : ℚ)), (1, 1 / 20)] 2 =
      [(0, FVal.nan), (1, FVal.posInf)] ∧
    (∀ x : ℝ, FVal.posInf ≠ FVal.fin x) := by
  constructor
  · have he : rolling_entry [1 / 20, 1 / 20] = FVal.posInf := by
      norm_num [rolling_entry, sampleVar_const, mean]
    have hv : rolling_vals [1 / 20, 1 / 20] 2 = [FVal.nan, FVal.posInf] := by
      norm_num [rolling_vals, List.range_succ, trailing_window, he]
    rw [get_rolling_sharpe]
    norm_num [hv]
  · intro x h
    exact FVal.noConfusion h

/-- Forward-fill lookup: the value of the most recent benchmark point at
or before t, none when no benchmark point lies at or before t.  This is
what a pandas reindex with forward fill produces at t on a sorted
benchmark index. -/
def ffill_at (bench : List (ℤ × ℚ)) (t : ℤ) : Option ℚ :=
  ((bench.filter (fun b => decide (b.1 ≤ t))).getLast?).map Prod.snd

/-- Reindex of the benchmark returns onto the strategy instants with
forward fill (generator.py line 117). -/
def reindex_ffill (bench : List (ℤ × ℚ)) (idx : List ℤ) : List (ℤ × Option ℚ) :=
  idx.map (fun t => (t, ffill_at bench t))

/-- Drop the entries still missing after the forward fill (the dropna of
generator.py line 117). -/
def dropna (l : List (ℤ × Option ℚ)) : List (ℤ × ℚ) :=
  l.filterMap (fun p => p.2.map (fun v => (p.1, v)))

/-- The benchmark-alignment step of
TearsheetGenerator.get_benchmark_returns (generator.py lines 100-120):
reindex the benchmark return series onto the strategy return instants with
forward fill, then drop the remaining gaps. -/
def align_benchmark (bench : List (ℤ × ℚ)) (strat : ReturnSeries) : List (ℤ × ℚ) :=
  dropna (reindex_ffill bench (strat.map Prod.fst))

lemma align_map_fst (bench : List (ℤ × ℚ)) (idx : List ℤ) :
    (dropna (reindex_ffill bench idx)).map Prod.fst =
      idx.filter (fun t => (ffill_at bench t).isSome) := by
  induction idx with
  | nil => rfl
  | cons t ts ih =>
    simp only [reindex_ffill, List.map_cons, dropna, List.filterMap_cons] at ih ⊢
    cases hf : ffill_at bench t with
    | none => simpa [hf, List.filter_cons] using ih
    | some v => simpa [hf, List.filter_cons] using ih

lemma ffill_at_isSome (bench : List (ℤ × ℚ)) (t : ℤ) :
    (ffill_at bench t).isSome = bench.any (fun b => decide (b.1 ≤ t)) := by
  rw [ffill_at, Option.isSome_map']
  by_cases hf : bench.filter (fun b => decide (b.1 ≤ t)) = []
  · rw [hf]
    simp only [List.getLast?_nil, Option.isSome_none]
    symm
    rw [List.any_eq_false]
    intro b hb
    have := List.filter_eq_nil_iff.1 hf b hb
    simpa using this
  · have h1 : (bench.filter (fun b => decide (b.1 ≤ t))).getLast?.isSome = true := by
      rw [List.getLast?_isSome]
      exact hf
    rw [h1]
    symm
    rw [List.any_eq_true]
    obtain ⟨x, hx⟩ := List.exists_mem_of_ne_nil _ hf
    have hx' := List.mem_filter.1 hx
    exact ⟨x, hx'.1, hx'.2⟩

lemma filter_eq_drop_of_sorted (idx : List ℤ) (p : ℤ → Bool)
    (hs : idx.Pairwise (fun a b => a ≤ b))
    (hm : ∀ a b : ℤ, a ≤ b → p a = true → p b = true) :
    ∃ k, idx.filter p = idx.drop k := by
  induction idx with
  | nil => exact ⟨0, rfl⟩
  | cons t ts ih =>
    rcases List.pairwise_cons.1 hs with ⟨hts, hs'⟩
    by_cases hp : p t = true
    · refine ⟨0, ?_⟩
      rw [List.drop_zero, List.filter_cons_of_pos hp]
      rw [List.filter_eq_self.2 (fun a ha => hm t a (hts a ha) hp)]
    · obtain ⟨k, hk⟩ := ih hs'
      refine ⟨k + 1, ?_⟩
      rw [List.filter_cons_of_neg (by simpa using hp), List.drop_succ_cons, hk]

/-- C9: the aligned benchmark index produced by reindexing onto the
strategy return instants with forward fill and then dropping the remaining
gaps keeps exactly the strategy instants having some benchmark point at or
before them; on a sorted strategy index those form a suffix, so the
aligned index is the strategy index with its unmatched leading entries
dropped (and of equal length over that suffix). -/
theorem align_benchmark_spec (bench : List (ℤ × ℚ)) (strat : ReturnSeries)
    (hsorted : (strat.map Prod.fst).Pairwise (fun a b => a ≤ b)) :
    (align_benchmark bench strat).map Prod.fst =
      (strat.map Prod.fst).filter (fun t => (ffill_at bench t).isSome) ∧
    (∀ t : ℤ, (ffill_at bench t).isSome = bench.any (fun b => decide (b.1 ≤ t))) ∧
    (∃ k, (align_benchmark bench strat).map Prod.fst = (strat.map Prod.fst).drop k) := by
  have hmono : ∀ a b : ℤ, a ≤ b →
      ((ffill_at bench a).isSome = true) → ((ffill_at bench b).isSome = true) := by
    intro a b hab ha
    rw [ffill_at_isSome] at ha ⊢
    rw [List.any_eq_true] at ha ⊢
    obtain ⟨x, hx, hxle⟩ := ha
    exact ⟨x, hx, by simpa using le_trans (by simpa using hxle) hab⟩
  refine ⟨by rw [align_benchmark]; exact align_map_fst bench _, ffill_at_isSome bench, ?_⟩
  obtain ⟨k, hk⟩ := filter_eq_drop_of_sorted (strat.map Prod.fst) _ hsorted hmono
  exact ⟨k, by rw [align_benchmark, align_map_fst, hk]⟩

/-- Witness for C9: one benchmark point at instant 10 against strategy
instants 5 and 12; the aligned index keeps the suffix from instant 12. -/
theorem align_benchmark_spec_witness :
    (align_benchmark [((10 : ℤ), (1 / 2 : ℚ))] [((5 : ℤ), (0 : ℚ)), (12, 0)]).map Prod.fst =
      ([((5 : ℤ), (0 : ℚ)), (12, 0)].map Prod.fst).filter
        (fun t => (ffill_at [((10 : ℤ), (1 / 2 : ℚ))] t).isSome) ∧
    (∀ t : ℤ, (ffill_at [((10 : ℤ), (1 / 2 : ℚ))] t).isSome =
      [((10 : ℤ), (1 / 2 : ℚ))].any (fun b => decide (b.1 ≤ t))) ∧
    (∃ k, (align_benchmark [((10 : ℤ), (1 / 2 : ℚ))] [((5 : ℤ), (0 : ℚ)), (12, 0)]).map Prod.fst =
      ([((5 : ℤ), (0 : ℚ)), (12, 0)].map Prod.fst).drop k) :=
  align_benchmark_spec _ _ (by decide)

end Tearsheet
